import Mathlib

/-!
Verification of the bounded per-conversation history store of `src/bot.py`
(the `ConversationManager` class together with the `chat_range` resize
handler).

The Python code keeps, per chat id, a `deque(maxlen=cap)` of
`{role, content}` dicts inside a `defaultdict`.  We embed this as a
`Store`: a total map `Int → Option Conv` (absent key = no entry yet; a
`defaultdict` read inserts the default entry, which the embedding models
explicitly) where a `Conv` is a capacity together with the list of
messages, oldest first.  A `deque` append at capacity evicts the oldest
element, which is `takeLast cap (msgs ++ [m])`; constructing
`deque(old, maxlen=n)` keeps the last `n` elements, which is
`takeLast n old`.
-/

namespace Redbud

/-- One stored message: a `{"role": r, "content": c}` dict (bot.py line 23). -/
structure Message where
  role : String
  content : String
deriving DecidableEq, Repr

/-- One conversation entry: a `deque(maxlen=maxlen)` holding `msgs`,
oldest first (bot.py line 18). -/
structure Conv where
  maxlen : Nat
  msgs : List Message
deriving DecidableEq, Repr

/-- The state of a `ConversationManager`: the default capacity passed to
`__init__` and the `defaultdict` from chat id to deque (bot.py lines 17-18).
`none` means the key is not present in the dict. -/
structure Store where
  defaultMax : Nat
  histories : Int → Option Conv

/-- The last `n` elements of a list, in order: what a `deque` with
`maxlen = n` retains after appends or after `deque(l, maxlen=n)`. -/
def takeLast (n : Nat) (l : List α) : List α := l.drop (l.length - n)

/-- A freshly constructed `ConversationManager(max_turns=d)`:
empty `defaultdict` (bot.py lines 17-18). -/
def emptyStore (d : Nat) : Store := ⟨d, fun _ => none⟩

/-- The deque `self._histories[chat_id]` evaluates to: the stored one, or
the default `deque(maxlen=default)` the `defaultdict` would create. -/
def getConv (s : Store) (id : Int) : Conv := (s.histories id).getD ⟨s.defaultMax, []⟩

/-- Overwrite (or insert) the entry for `id`. -/
def setConv (s : Store) (id : Int) (c : Conv) : Store :=
  ⟨s.defaultMax, fun j => if j = id then some c else s.histories j⟩

/-- `add_message` (bot.py lines 21-23): `self._histories[chat_id]` inserts
the default entry if absent, then `.append({"role": role, "content": content})`
evicts the oldest element when the deque is at capacity. -/
def add_message (s : Store) (id : Int) (role content : String) : Store :=
  let c := getConv s id
  setConv s id ⟨c.maxlen, takeLast c.maxlen (c.msgs ++ [⟨role, content⟩])⟩

/-- `get_history` (bot.py lines 25-28): returns `list(self._histories[chat_id])`,
a fresh list of the current messages; the `defaultdict` read also inserts the
default entry if absent, hence the returned state. -/
def get_history (s : Store) (id : Int) : List Message × Store :=
  ((getConv s id).msgs, setConv s id (getConv s id))

/-- `clear` (bot.py lines 30-32): `self._histories.pop(chat_id, None)`. -/
def clear (s : Store) (id : Int) : Store :=
  ⟨s.defaultMax, fun j => if j = id then none else s.histories j⟩

/-- The single failure kind of the store: `chat_range` raising `ValueError`
for an out-of-range capacity (bot.py lines 122-123). -/
inductive RangeError where
  | invalidCapacity
deriving DecidableEq, Repr

/-- The resize path of the `chat_range` handler (bot.py lines 114-131):
under the lock it reads `_histories[chat_id].maxlen` (a `defaultdict` read,
so the entry is inserted first), checks `1 <= new_max <= 1000` (raising
`ValueError` otherwise), and on success replaces the deque with
`deque(old, maxlen=new_max)`, which keeps the last `new_max` messages. -/
def chat_range (s : Store) (id : Int) (n : Int) : Except RangeError Unit × Store :=
  if n < 1 ∨ 1000 < n then
    (Except.error RangeError.invalidCapacity, setConv s id (getConv s id))
  else
    (Except.ok (),
      setConv (setConv s id (getConv s id)) id ⟨n.toNat, takeLast n.toNat (getConv s id).msgs⟩)

/-- Observation: the message list the next `get_history(id)` would return. -/
def getHistoryVal (s : Store) (id : Int) : List Message := (getConv s id).msgs

/-- Observation: the effective capacity of `id`, read as
`_histories[chat_id].maxlen` (bot.py lines 96 and 115); the spec's
`getCapacity`. -/
def getCapacity (s : Store) (id : Int) : Nat := (getConv s id).maxlen

/-- One store operation, for quantifying over arbitrary call sequences. -/
inductive Op where
  | add (id : Int) (role content : String)
  | wipe (id : Int)
  | range (id : Int) (n : Int)
  | history (id : Int)
deriving Repr

/-- The state effect of one operation. -/
def applyOp (s : Store) : Op → Store
  | .add id r c => add_message s id r c
  | .wipe id => clear s id
  | .range id n => (chat_range s id n).2
  | .history id => (get_history s id).2

/-- Run a sequence of operations left to right. -/
def runOps (s : Store) (ops : List Op) : Store := ops.foldl applyOp s

/-- Append a whole list of `(role, content)` pairs to one conversation. -/
def addAll (s : Store) (id : Int) (ms : List (String × String)) : Store :=
  ms.foldl (fun t p => add_message t id p.1 p.2) s

-- Basic lemmas about the embedding.

theorem getConv_setConv (s : Store) (id : Int) (c : Conv) (j : Int) :
    getConv (setConv s id c) j = if j = id then c else getConv s j := by
  unfold getConv setConv
  by_cases h : j = id <;> simp [h]

theorem getConv_setConv_self (s : Store) (id : Int) (j : Int) :
    getConv (setConv s id (getConv s id)) j = getConv s j := by
  rw [getConv_setConv]
  by_cases h : j = id <;> simp [h]

theorem takeLast_length (n : Nat) (l : List α) :
    (takeLast n l).length = min n l.length := by
  unfold takeLast
  rw [List.length_drop]
  omega

theorem takeLast_length_le (n : Nat) (l : List α) : (takeLast n l).length ≤ n := by
  rw [takeLast_length]; omega

theorem takeLast_of_length_le (n : Nat) (l : List α) (h : l.length ≤ n) :
    takeLast n l = l := by
  unfold takeLast
  rw [Nat.sub_eq_zero_of_le h, List.drop_zero]

theorem takeLast_concat (m : Nat) (l : List α) (x : α) :
    takeLast m (takeLast m l ++ [x]) = takeLast m (l ++ [x]) := by
  rcases Nat.eq_zero_or_pos m with hm | hm
  · subst hm
    unfold takeLast
    simp [List.drop_length]
  · by_cases hl : l.length ≤ m
    · rw [takeLast_of_length_le m l hl]
    · push_neg at hl
      unfold takeLast
      have hlen : (l.drop (l.length - m)).length = m := by
        rw [List.length_drop]; omega
      rw [List.length_append, List.length_append, hlen, List.length_singleton]
      have h1 : m + 1 - m = 1 := by omega
      rw [h1]
      have h2 : 1 ≤ (l.drop (l.length - m)).length := by rw [hlen]; omega
      have h3 : l.length + 1 - m ≤ l.length := by omega
      rw [List.drop_append_of_le_length h2]
      rw [List.drop_append_of_le_length h3]
      rw [List.drop_drop]
      have h4 : l.length - m + 1 = l.length + 1 - m := by omega
      rw [h4]

theorem getLast?_takeLast_concat (m : Nat) (l : List α) (x : α) (h : 1 ≤ m) :
    (takeLast m (l ++ [x])).getLast? = some x := by
  unfold takeLast
  rw [List.length_append, List.length_singleton]
  rw [List.drop_append_of_le_length (by omega : l.length + 1 - m ≤ l.length)]
  exact List.getLast?_concat _

theorem getConv_clear (s : Store) (id j : Int) :
    getConv (clear s id) j = if j = id then ⟨s.defaultMax, []⟩ else getConv s j := by
  unfold getConv clear
  by_cases h : j = id <;> simp [h]

theorem defaultMax_setConv (s : Store) (id : Int) (c : Conv) :
    (setConv s id c).defaultMax = s.defaultMax := rfl

theorem defaultMax_chat_range (s : Store) (id n : Int) :
    (chat_range s id n).2.defaultMax = s.defaultMax := by
  unfold chat_range
  split <;> rfl

-- The size invariant and its preservation by every operation (claim C1).

/-- The spec's invariant: every conversation's stored history fits its
current capacity. -/
def Inv (s : Store) : Prop :=
  ∀ id, (getHistoryVal s id).length ≤ getCapacity s id

theorem inv_emptyStore (d : Nat) : Inv (emptyStore d) := by
  intro id
  simp [getHistoryVal, getCapacity, getConv, emptyStore]

theorem inv_add_message (s : Store) (id : Int) (r c : String) (h : Inv s) :
    Inv (add_message s id r c) := by
  intro j
  unfold getHistoryVal getCapacity add_message
  rw [getConv_setConv]
  by_cases hj : j = id
  · simp only [hj, if_pos rfl]
    exact takeLast_length_le _ _
  · simp only [if_neg hj]
    exact h j

theorem inv_clear (s : Store) (id : Int) (h : Inv s) : Inv (clear s id) := by
  intro j
  unfold getHistoryVal getCapacity
  rw [getConv_clear]
  by_cases hj : j = id
  · simp [hj]
  · simp only [if_neg hj]
    exact h j

theorem inv_chat_range (s : Store) (id n : Int) (h : Inv s) :
    Inv (chat_range s id n).2 := by
  intro j
  unfold chat_range
  split
  · unfold getHistoryVal getCapacity
    simp only
    rw [getConv_setConv_self]
    exact h j
  · unfold getHistoryVal getCapacity
    simp only
    rw [getConv_setConv]
    by_cases hj : j = id
    · simp only [hj, if_pos rfl]
      exact takeLast_length_le _ _
    · simp only [if_neg hj]
      rw [getConv_setConv_self]
      exact h j

theorem inv_get_history (s : Store) (id : Int) (h : Inv s) :
    Inv (get_history s id).2 := by
  intro j
  unfold get_history getHistoryVal getCapacity
  simp only
  rw [getConv_setConv_self]
  exact h j

theorem inv_applyOp (s : Store) (o : Op) (h : Inv s) : Inv (applyOp s o) := by
  cases o with
  | add id r c => exact inv_add_message s id r c h
  | wipe id => exact inv_clear s id h
  | range id n => exact inv_chat_range s id n h
  | history id => exact inv_get_history s id h

theorem inv_runOps (s : Store) (ops : List Op) (h : Inv s) : Inv (runOps s ops) := by
  induction ops generalizing s with
  | nil => exact h
  | cons o rest ih => exact ih (applyOp s o) (inv_applyOp s o h)

-- Characterizing what a sequence of appends leaves in the history (claim C2).

theorem getCapacity_add_message (s : Store) (id : Int) (r c : String) (j : Int) :
    getCapacity (add_message s id r c) j = getCapacity s j := by
  unfold getCapacity add_message
  rw [getConv_setConv]
  by_cases hj : j = id <;> simp [hj]

theorem getCapacity_addAll (s : Store) (id : Int) (ms : List (String × String)) (j : Int) :
    getCapacity (addAll s id ms) j = getCapacity s j := by
  induction ms generalizing s with
  | nil => rfl
  | cons p rest ih =>
    show getCapacity (addAll (add_message s id p.1 p.2) id rest) j = getCapacity s j
    rw [ih, getCapacity_add_message]

theorem getHistoryVal_add_message_self (s : Store) (id : Int) (r c : String) :
    getHistoryVal (add_message s id r c) id
      = takeLast (getCapacity s id) (getHistoryVal s id ++ [⟨r, c⟩]) := by
  unfold getHistoryVal getCapacity add_message
  rw [getConv_setConv]
  simp

theorem getHistoryVal_addAll (d : Nat) (id : Int) (ms : List (String × String)) :
    getHistoryVal (addAll (emptyStore d) id ms) id
      = takeLast d (ms.map fun p => Message.mk p.1 p.2) := by
  induction ms using List.reverseRecOn with
  | nil => simp [addAll, getHistoryVal, getConv, emptyStore, takeLast]
  | append_singleton ms p ih =>
    have hstep : addAll (emptyStore d) id (ms ++ [p])
        = add_message (addAll (emptyStore d) id ms) id p.1 p.2 := by
      unfold addAll
      rw [List.foldl_append]
      rfl
    rw [hstep, getHistoryVal_add_message_self, ih, getCapacity_addAll]
    have hcap : getCapacity (emptyStore d) id = d := rfl
    rw [hcap, takeLast_concat, List.map_append]
    rfl

-- Branch equations and frame lemmas for `chat_range`.

theorem chat_range_err (s : Store) (id n : Int) (h : n < 1 ∨ 1000 < n) :
    chat_range s id n
      = (Except.error RangeError.invalidCapacity, setConv s id (getConv s id)) := by
  unfold chat_range
  rw [if_pos h]

theorem chat_range_ok (s : Store) (id n : Int) (h : ¬(n < 1 ∨ 1000 < n)) :
    chat_range s id n
      = (Except.ok (),
          setConv (setConv s id (getConv s id)) id
            ⟨n.toNat, takeLast n.toNat (getConv s id).msgs⟩) := by
  unfold chat_range
  rw [if_neg h]

theorem chat_range_error_iff (s : Store) (id n : Int) :
    (chat_range s id n).1 = Except.error RangeError.invalidCapacity ↔ (n < 1 ∨ 1000 < n) := by
  by_cases h : n < 1 ∨ 1000 < n
  · rw [chat_range_err s id n h]
    simp [h]
  · rw [chat_range_ok s id n h]
    simp [h]

theorem chat_range_err_frame (s : Store) (id n : Int) (h : n < 1 ∨ 1000 < n) (j : Int) :
    getHistoryVal (chat_range s id n).2 j = getHistoryVal s j
    ∧ getCapacity (chat_range s id n).2 j = getCapacity s j := by
  rw [chat_range_err s id n h]
  unfold getHistoryVal getCapacity
  rw [getConv_setConv_self]
  exact ⟨rfl, rfl⟩

/-- The concrete scenario of the spec: `n` alternating user/assistant
messages, the `i`-th appended message carrying content `toString i`. -/
def altMsgs (n : Nat) : List (String × String) :=
  (List.range n).map fun i => (if i % 2 = 0 then "user" else "assistant", toString (i + 1))

/-- C1: for every conversation id and every sequence of store operations
(in particular every sequence of `add_message` calls), the stored history
length never exceeds the conversation's current capacity:
`len(getHistory(id)) <= maxTurns` holds after every operation. -/
theorem C1_history_length_le_capacity (d : Nat) (ops : List Op) (id : Int) :
    (getHistoryVal (runOps (emptyStore d) ops) id).length
      ≤ getCapacity (runOps (emptyStore d) ops) id :=
  inv_runOps (emptyStore d) ops (inv_emptyStore d) id

/-- C2: eviction is FIFO and order-preserving: after any sequence of
appends the history is exactly the `maxTurns` most recent messages in
append order (`takeLast`); concretely, with default capacity 30, after 35
appends to conversation 42 the history has length 30 and its first element
is the 6th message appended (`("assistant", "6")`, which is indeed entry 5
of the appended sequence). -/
theorem C2_fifo_eviction :
    (∀ (d : Nat) (id : Int) (ms : List (String × String)),
        getHistoryVal (addAll (emptyStore d) id ms) id
          = takeLast d (ms.map fun p => Message.mk p.1 p.2))
    ∧ (getHistoryVal (addAll (emptyStore 30) 42 (altMsgs 35)) 42).length = 30
    ∧ (altMsgs 35)[5]? = some ("assistant", "6")
    ∧ (getHistoryVal (addAll (emptyStore 30) 42 (altMsgs 35)) 42).head?
        = some ⟨"assistant", "6"⟩ := by
  refine ⟨fun d id ms => getHistoryVal_addAll d id ms, ?_, ?_, ?_⟩ <;> decide

/-- C3: for every `n` in `[1, 1000]`, `chat_range` (the resize path)
succeeds, sets the conversation's capacity to `n`, truncates the history
to its `n` most recent messages in order, and leaves every other
conversation untouched. -/
theorem C3_resize_valid (s : Store) (id n : Int) (h1 : 1 ≤ n) (h2 : n ≤ 1000) :
    (chat_range s id n).1 = Except.ok ()
    ∧ getCapacity (chat_range s id n).2 id = n.toNat
    ∧ getHistoryVal (chat_range s id n).2 id = takeLast n.toNat (getHistoryVal s id)
    ∧ ∀ j, j ≠ id →
        getHistoryVal (chat_range s id n).2 j = getHistoryVal s j
        ∧ getCapacity (chat_range s id n).2 j = getCapacity s j := by
  have hc : ¬(n < 1 ∨ 1000 < n) := by omega
  rw [chat_range_ok s id n hc]
  refine ⟨rfl, ?_, ?_, ?_⟩
  · unfold getCapacity
    rw [getConv_setConv]
    simp
  · unfold getHistoryVal
    rw [getConv_setConv]
    simp
  · intro j hj
    unfold getHistoryVal getCapacity
    rw [getConv_setConv]
    simp only [if_neg hj]
    rw [getConv_setConv_self]
    exact ⟨rfl, rfl⟩

/-- C3 witness: conversation 7 holds 10 messages; `chat_range(7, 3)`
succeeds and leaves exactly the 8th, 9th and 10th appended messages, in
that order, at capacity 3. -/
theorem C3_resize_valid_witness :
    (1 : Int) ≤ 3 ∧ (3 : Int) ≤ 1000
    ∧ (chat_range (addAll (emptyStore 30) 7 (altMsgs 10)) 7 3).1 = Except.ok ()
    ∧ getCapacity (chat_range (addAll (emptyStore 30) 7 (altMsgs 10)) 7 3).2 7 = 3
    ∧ getHistoryVal (chat_range (addAll (emptyStore 30) 7 (altMsgs 10)) 7 3).2 7
        = [⟨"assistant", "8"⟩, ⟨"user", "9"⟩, ⟨"assistant", "10"⟩] := by
  have h := C3_resize_valid (addAll (emptyStore 30) 7 (altMsgs 10)) 7 3 (by decide) (by decide)
  refine ⟨by decide, by decide, h.1, h.2.1, ?_⟩
  rw [h.2.2.1]
  decide

/-- C4: `chat_range` fails with the single error kind `invalidCapacity`
exactly when `n` is outside `[1, 1000]`, and on failure every
conversation's observable history and capacity are unchanged;
`invalidCapacity` is the only error value it can ever return. -/
theorem C4_resize_invalid (s : Store) (id n : Int) :
    ((chat_range s id n).1 = Except.error RangeError.invalidCapacity ↔ (n < 1 ∨ 1000 < n))
    ∧ ((n < 1 ∨ 1000 < n) → ∀ j,
        getHistoryVal (chat_range s id n).2 j = getHistoryVal s j
        ∧ getCapacity (chat_range s id n).2 j = getCapacity s j)
    ∧ (∀ e, (chat_range s id n).1 = Except.error e → e = RangeError.invalidCapacity) := by
  refine ⟨chat_range_error_iff s id n, ?_, ?_⟩
  · intro h j
    exact chat_range_err_frame s id n h j
  · intro e _
    cases e
    rfl

/-- C4 witness: `chat_range(99, 0)` on a fresh store fails with
`invalidCapacity` and leaves conversation 99's observations unchanged. -/
theorem C4_resize_invalid_witness :
    ((0 : Int) < 1 ∨ 1000 < (0 : Int))
    ∧ (chat_range (emptyStore 30) 99 0).1 = Except.error RangeError.invalidCapacity
    ∧ getHistoryVal (chat_range (emptyStore 30) 99 0).2 99 = getHistoryVal (emptyStore 30) 99
    ∧ getCapacity (chat_range (emptyStore 30) 99 0).2 99 = getCapacity (emptyStore 30) 99 := by
  have h := C4_resize_invalid (emptyStore 30) 99 0
  have h0 : (0 : Int) < 1 ∨ 1000 < (0 : Int) := by decide
  exact ⟨h0, h.1.mpr h0, (h.2.1 h0 99).1, (h.2.1 h0 99).2⟩

/-- C6: `clear` removes the conversation entirely, capacity override
included: afterwards the history reads empty and the capacity reads the
default; `clear` is idempotent, and clearing an id with no entry is a
no-op on the whole store state. -/
theorem C6_clear_removes_entry (s : Store) (id : Int) :
    getHistoryVal (clear s id) id = []
    ∧ getCapacity (clear s id) id = s.defaultMax
    ∧ clear (clear s id) id = clear s id
    ∧ (s.histories id = none → clear s id = s) := by
  refine ⟨?_, ?_, ?_, ?_⟩
  · unfold getHistoryVal
    rw [getConv_clear]
    simp
  · unfold getCapacity
    rw [getConv_clear]
    simp
  · unfold clear
    congr 1
    funext j
    by_cases hj : j = id <;> simp [hj]
  · intro h
    cases s with
    | mk d f =>
      unfold clear
      congr 1
      funext j
      by_cases hj : j = id
      · subst hj
        simp at h
        simp [h]
      · simp [hj]

/-- C6 witness: after resizing conversation 5 to capacity 7 and clearing
it, the history reads empty and the capacity reads the default 30 again;
clearing is idempotent there, and clearing id 5 of a fresh store is a
no-op. -/
theorem C6_clear_removes_entry_witness :
    getHistoryVal (clear (chat_range (emptyStore 30) 5 7).2 5) 5 = []
    ∧ getCapacity (clear (chat_range (emptyStore 30) 5 7).2 5) 5 = 30
    ∧ clear (clear (chat_range (emptyStore 30) 5 7).2 5) 5 = clear (chat_range (emptyStore 30) 5 7).2 5
    ∧ clear (emptyStore 30) 5 = emptyStore 30 := by
  have h := C6_clear_removes_entry (chat_range (emptyStore 30) 5 7).2 5
  have h2 := C6_clear_removes_entry (emptyStore 30) 5
  refine ⟨h.1, ?_, h.2.2.1, h2.2.2.2 rfl⟩
  rw [h.2.1, defaultMax_chat_range]
  rfl

/-- C7: for an id with no entry, the history reads empty, the capacity
reads the store's default, `get_history` returns the empty list, and the
resize path errors exactly for out-of-range capacities — never because the
id is unseen; `add_message`, `get_history` and `clear` are total functions
and have no error outcome at all. -/
theorem C7_unseen_id_defaults (s : Store) (id : Int) (h : s.histories id = none) :
    getHistoryVal s id = []
    ∧ getCapacity s id = s.defaultMax
    ∧ (get_history s id).1 = []
    ∧ ∀ n, ((chat_range s id n).1 = Except.error RangeError.invalidCapacity
        ↔ (n < 1 ∨ 1000 < n)) := by
  have hg : getConv s id = ⟨s.defaultMax, []⟩ := by
    unfold getConv
    rw [h]
    rfl
  refine ⟨?_, ?_, ?_, fun n => chat_range_error_iff s id n⟩
  · unfold getHistoryVal
    rw [hg]
  · unfold getCapacity
    rw [hg]
  · unfold get_history
    simp only
    rw [hg]

/-- C7 witness: the never-seen id 123 of a fresh store reads an empty
history at the default capacity 30, and resizing it to 50 does not
error. -/
theorem C7_unseen_id_defaults_witness :
    (emptyStore 30).histories 123 = none
    ∧ getHistoryVal (emptyStore 30) 123 = []
    ∧ getCapacity (emptyStore 30) 123 = 30
    ∧ ¬(chat_range (emptyStore 30) 123 50).1 = Except.error RangeError.invalidCapacity := by
  have h := C7_unseen_id_defaults (emptyStore 30) 123 rfl
  refine ⟨rfl, h.1, h.2.1, ?_⟩
  intro hc
  exact absurd ((h.2.2.2 50).mp hc) (by decide)

/-- C9: a failed resize on a previously unseen id still inserts an entry
for that id — an empty history at the default capacity — while reporting
the error, so the mapping's key set grows on the error path even though
the observations for that id are unchanged. -/
theorem C9_failed_resize_inserts (s : Store) (id n : Int) (h : s.histories id = none)
    (hn : n < 1 ∨ 1000 < n) :
    (chat_range s id n).1 = Except.error RangeError.invalidCapacity
    ∧ (chat_range s id n).2.histories id = some ⟨s.defaultMax, []⟩
    ∧ getHistoryVal (chat_range s id n).2 id = []
    ∧ getCapacity (chat_range s id n).2 id = s.defaultMax := by
  have hg : getConv s id = ⟨s.defaultMax, []⟩ := by
    unfold getConv
    rw [h]
    rfl
  rw [chat_range_err s id n hn]
  refine ⟨rfl, ?_, ?_, ?_⟩
  · unfold setConv
    simp [hg]
  · unfold getHistoryVal
    rw [getConv_setConv_self, hg]
  · unfold getCapacity
    rw [getConv_setConv_self, hg]

/-- C9 witness: `chat_range(99, 1001)` on a fresh store errors, yet the
mapping afterwards holds an entry `⟨30, []⟩` for id 99 where before it
held none. -/
theorem C9_failed_resize_inserts_witness :
    (emptyStore 30).histories 99 = none
    ∧ (chat_range (emptyStore 30) 99 1001).1 = Except.error RangeError.invalidCapacity
    ∧ (chat_range (emptyStore 30) 99 1001).2.histories 99 = some ⟨30, []⟩ := by
  have h := C9_failed_resize_inserts (emptyStore 30) 99 1001 rfl (by decide)
  exact ⟨rfl, h.1, h.2.1⟩

/-- C10: `add_message` validates nothing: for arbitrary role and content
strings it always succeeds, appends the message verbatim at the end
(evicting the oldest if at capacity), and preserves the capacity; whenever
the capacity is at least 1 the appended message is the last element of the
new history. -/
theorem C10_add_message_total (s : Store) (id : Int) (role content : String) :
    getHistoryVal (add_message s id role content) id
      = takeLast (getCapacity s id) (getHistoryVal s id ++ [⟨role, content⟩])
    ∧ getCapacity (add_message s id role content) id = getCapacity s id
    ∧ (1 ≤ getCapacity s id →
        (getHistoryVal (add_message s id role content) id).getLast?
          = some ⟨role, content⟩) := by
  refine ⟨getHistoryVal_add_message_self s id role content,
    getCapacity_add_message s id role content id, ?_⟩
  intro h
  rw [getHistoryVal_add_message_self]
  exact getLast?_takeLast_concat _ _ _ h

/-- C10 witness: the non-standard role string "banana" is accepted and
stored verbatim. -/
theorem C10_add_message_total_witness :
    1 ≤ getCapacity (emptyStore 30) 0
    ∧ (getHistoryVal (add_message (emptyStore 30) 0 "banana" "split") 0).getLast?
        = some ⟨"banana", "split"⟩ :=
  ⟨by decide, (C10_add_message_total (emptyStore 30) 0 "banana" "split").2.2 (by decide)⟩

/-!
Reference-level embedding, for the aliasing behaviour of `get_history`
(claim C5).  In Python the deque holds references to `{role, content}`
dict objects and `list(deque)` (bot.py line 28) copies only the list of
references: the returned list is fresh, but its elements are the very
dict objects still referenced by the deque.  We make the references
explicit: a heap of allocated message dicts (the address of a dict is its
allocation index, `add_message` allocates a new dict per call, bot.py
line 23) and per-conversation lists of addresses.  `get_history` returns
the address list; the caller sees it resolved against the current heap.
-/

namespace RefModel

/-- One conversation entry at reference level: capacity plus the
addresses of the stored message dicts, oldest first. -/
structure RConv where
  maxlen : Nat
  msgs : List Nat
deriving DecidableEq, Repr

/-- Reference-level manager state: default capacity, the heap of every
message dict allocated so far (address = index), and the id map. -/
structure RStore where
  defaultMax : Nat
  heap : List Message
  histories : Int → Option RConv

/-- A fresh `ConversationManager(max_turns=d)`: nothing allocated. -/
def emptyRStore (d : Nat) : RStore := ⟨d, [], fun _ => none⟩

/-- The deque for `id`, or the default the `defaultdict` would create. -/
def getRConv (s : RStore) (id : Int) : RConv := (s.histories id).getD ⟨s.defaultMax, []⟩

/-- Overwrite (or insert) the entry for `id`; the heap is untouched. -/
def setRConv (s : RStore) (id : Int) (c : RConv) : RStore :=
  ⟨s.defaultMax, s.heap, fun j => if j = id then some c else s.histories j⟩

/-- `add_message` at reference level: a new dict is allocated (fresh
address `s.heap.length`) and its reference appended, evicting the oldest
reference at capacity.  Evicted dicts stay in the heap: a snapshot that
still references them keeps them reachable. -/
def add_message (s : RStore) (id : Int) (role content : String) : RStore :=
  ⟨s.defaultMax, s.heap ++ [⟨role, content⟩],
    fun j =>
      if j = id then
        some ⟨(getRConv s id).maxlen,
          takeLast (getRConv s id).maxlen ((getRConv s id).msgs ++ [s.heap.length])⟩
      else s.histories j⟩

/-- `get_history` at reference level: `list(self._histories[chat_id])` is
a fresh list holding the same references. -/
def get_history (s : RStore) (id : Int) : List Nat × RStore :=
  ((getRConv s id).msgs, setRConv s id (getRConv s id))

/-- `clear` at reference level. -/
def clear (s : RStore) (id : Int) : RStore :=
  ⟨s.defaultMax, s.heap, fun j => if j = id then none else s.histories j⟩

/-- The resize path of `chat_range` at reference level: the new deque
holds the last `new_max` of the same references; no dict is copied. -/
def chat_range (s : RStore) (id n : Int) : Except RangeError Unit × RStore :=
  if n < 1 ∨ 1000 < n then
    (Except.error RangeError.invalidCapacity, setRConv s id (getRConv s id))
  else
    (Except.ok (),
      setRConv (setRConv s id (getRConv s id)) id
        ⟨n.toNat, takeLast n.toNat (getRConv s id).msgs⟩)

/-- Dereference: the message dict currently stored at address `a`. -/
def readMsg (s : RStore) (a : Nat) : Message := s.heap.getD a ⟨"", ""⟩

/-- What a caller holding a list of references sees: each reference
resolved against the current heap. -/
def resolve (s : RStore) (addrs : List Nat) : List Message := addrs.map (readMsg s)

/-- A caller mutating a message dict in place (`msg["content"] = ...`)
through a reference obtained from a snapshot: the heap cell changes, the
store's address lists do not. -/
def mutateMessage (s : RStore) (a : Nat) (m : Message) : RStore :=
  ⟨s.defaultMax, s.heap.set a m, s.histories⟩

/-- The state effect of one store operation at reference level. -/
def applyROp (s : RStore) : Op → RStore
  | .add id r c => add_message s id r c
  | .wipe id => clear s id
  | .range id n => (chat_range s id n).2
  | .history id => (get_history s id).2

/-- Run a sequence of store operations left to right. -/
def runROps (s : RStore) (ops : List Op) : RStore := ops.foldl applyROp s

theorem readMsg_applyROp (s : RStore) (o : Op) (a : Nat) (h : a < s.heap.length) :
    readMsg (applyROp s o) a = readMsg s a := by
  cases o with
  | add id r c =>
    show readMsg (add_message s id r c) a = readMsg s a
    unfold add_message readMsg
    exact List.getD_append _ _ _ _ h
  | wipe id => rfl
  | range id n =>
    show readMsg (chat_range s id n).2 a = readMsg s a
    unfold chat_range
    split <;> rfl
  | history id => rfl

theorem heap_length_applyROp (s : RStore) (o : Op) :
    s.heap.length ≤ (applyROp s o).heap.length := by
  cases o with
  | add id r c =>
    show s.heap.length ≤ (add_message s id r c).heap.length
    unfold add_message
    simp
  | wipe id => exact Nat.le_refl _
  | range id n =>
    show s.heap.length ≤ (chat_range s id n).2.heap.length
    unfold chat_range
    split <;> exact Nat.le_refl _
  | history id => exact Nat.le_refl _

theorem readMsg_runROps (s : RStore) (ops : List Op) (a : Nat) (h : a < s.heap.length) :
    readMsg (runROps s ops) a = readMsg s a := by
  induction ops generalizing s with
  | nil => rfl
  | cons o rest ih =>
    show readMsg (runROps (applyROp s o) rest) a = readMsg s a
    rw [ih (applyROp s o) (Nat.lt_of_lt_of_le h (heap_length_applyROp s o))]
    exact readMsg_applyROp s o a h

theorem readMsg_mutateMessage_self (s : RStore) (a : Nat) (m : Message)
    (h : a < s.heap.length) : readMsg (mutateMessage s a m) a = m := by
  unfold readMsg mutateMessage
  simp [List.getD, List.getElem?_set_self, h]

end RefModel

/-- Concrete scenario for C5: one message `("user", "hi")` appended to
conversation 0 of a fresh store; the snapshot `get_history` returns holds
the single reference `0`. -/
def c5Base : RefModel.RStore := RefModel.add_message (RefModel.emptyRStore 30) 0 "user" "hi"

/-- The same state after the caller mutates, in place, the message dict it
got from the snapshot. -/
def c5Mutated : RefModel.RStore := RefModel.mutateMessage c5Base 0 ⟨"user", "bye"⟩

/-- C5 counterexample: the claim says mutating a message contained in the
returned sequence never changes the result of subsequent `get_history`
calls.  False: the copy `list(deque)` makes is shallow.  Concretely,
address 0 is in the snapshot of conversation 0 of `c5Base`, and after the
caller rewrites that message dict in place, a subsequent `get_history`
resolves to `[("user", "bye")]` instead of `[("user", "hi")]`. -/
theorem C5_counterexample :
    0 ∈ (RefModel.get_history c5Base 0).1
    ∧ RefModel.resolve c5Base (RefModel.get_history c5Base 0).1
        = [⟨"user", "hi"⟩]
    ∧ ¬(RefModel.resolve c5Mutated (RefModel.get_history c5Mutated 0).1
        = RefModel.resolve c5Base (RefModel.get_history c5Base 0).1) := by
  decide

/-- C5 amended: `get_history` hands back a fresh list of references, so
the snapshot itself is independent of the store — running any further
store operations never changes what a previously returned snapshot
resolves to (the store never mutates an allocated message dict, it only
allocates new ones).  But the copy is shallow: the snapshot shares the
message dicts with internal storage, so a caller mutating in place a
message dict taken from the snapshot does change the result of subsequent
`get_history` calls. -/
theorem C5_get_history_shallow_copy (s : RefModel.RStore) (id : Int) :
    (∀ ops, (∀ a ∈ (RefModel.get_history s id).1, a < s.heap.length) →
        RefModel.resolve (RefModel.runROps s ops) (RefModel.get_history s id).1
          = RefModel.resolve s (RefModel.get_history s id).1)
    ∧ (∀ (a : Nat) (m : Message), a ∈ (RefModel.get_history s id).1 →
        a < s.heap.length → m ≠ RefModel.readMsg s a →
        RefModel.resolve (RefModel.mutateMessage s a m)
            (RefModel.get_history (RefModel.mutateMessage s a m) id).1
          ≠ RefModel.resolve s (RefModel.get_history s id).1) := by
  constructor
  · intro ops hvalid
    unfold RefModel.resolve
    exact List.map_eq_map_iff.mpr fun a ha => RefModel.readMsg_runROps s ops a (hvalid a ha)
  · intro a m ha hlt hne heq
    have hsame : (RefModel.get_history (RefModel.mutateMessage s a m) id).1
        = (RefModel.get_history s id).1 := rfl
    rw [hsame] at heq
    have := List.map_eq_map_iff.mp heq a ha
    rw [RefModel.readMsg_mutateMessage_self s a m hlt] at this
    exact hne this

/-- C5 amended witness: on the concrete one-message store, a further
`add_message` leaves the old snapshot's resolution untouched, while the
in-place mutation of the snapshot's message changes what `get_history`
returns next. -/
theorem C5_get_history_shallow_copy_witness :
    (∀ a ∈ (RefModel.get_history c5Base 0).1, a < c5Base.heap.length)
    ∧ RefModel.resolve (RefModel.runROps c5Base [Op.add 0 "user" "more"])
        (RefModel.get_history c5Base 0).1
        = RefModel.resolve c5Base (RefModel.get_history c5Base 0).1
    ∧ RefModel.resolve c5Mutated (RefModel.get_history c5Mutated 0).1
        ≠ RefModel.resolve c5Base (RefModel.get_history c5Base 0).1 := by
  have h := C5_get_history_shallow_copy c5Base 0
  exact ⟨by decide, h.1 [Op.add 0 "user" "more"] (by decide),
    h.2 0 ⟨"user", "bye"⟩ (by decide) (by decide) (by decide)⟩

end Redbud
